import Mathlib

/-!
Shallow embedding of `src/ethoscraper/core/scraper.py` (class `EthicalSpider`):
the field-extraction, transformation, validation, filtering, privacy and
serialization logic, together with theorems checking the natural-language
specification against it.

Python strings are modelled as Lean `String` (Python indexes/slices by code
point, which matches `String.data : List Char`).  Python slices, `startswith`,
`endswith`, `split`, `replace` and `in` (substring) are embedded as explicit
functions on the character lists below.  Python truthiness of the dynamic
values that can live in a record is embedded by `Value.truthy`.
-/

namespace EthoScraper

/-! ### Python string primitives -/

/-- Python slice `s[:n]` (also `str.__getitem__` up to `n`). -/
def pyTake (s : String) (n : Nat) : String := ⟨s.data.take n⟩

/-- Python slice `s[n:]`. -/
def pyDrop (s : String) (n : Nat) : String := ⟨s.data.drop n⟩

/-- Python slice `s[:-k]`.  Note Python's gotcha: for `k = 0` this is `s[:0] = ""`,
not the whole string. -/
def sliceDropRight (s : String) (k : Nat) : String :=
  if k = 0 then "" else ⟨s.data.take (s.data.length - k)⟩

/-- Python `v.startswith(s)`. -/
def pyStartsWith (v s : String) : Bool := s.data.isPrefixOf v.data

/-- Python `v.endswith(s)`. -/
def pyEndsWith (v s : String) : Bool := s.data.isSuffixOf v.data

/-- Contiguous-sublist test on character lists. -/
def isInfixCh : List Char → List Char → Bool
  | needle, [] => needle.isEmpty
  | needle, c :: cs => needle.isPrefixOf (c :: cs) || isInfixCh needle cs

/-- Python `needle in hay` for strings (substring test). -/
def strContains (needle hay : String) : Bool := isInfixCh needle.data hay.data

/-- Python `s.lower()` (ASCII case folding suffices for the data in scope). -/
def lowerStr (s : String) : String := ⟨s.data.map Char.toLower⟩

/-- Python `s.upper()`. -/
def upperStr (s : String) : String := ⟨s.data.map Char.toUpper⟩

/-- The whitespace characters `str.strip()` removes (ASCII fragment). -/
def isSpaceChar (c : Char) : Bool :=
  c == ' ' || c == '\t' || c == '\n' || c == '\r' || c == '\x0b' || c == '\x0c'

/-- Python `s.strip()`. -/
def pyStrip (s : String) : String :=
  ⟨((s.data.dropWhile isSpaceChar).reverse.dropWhile isSpaceChar).reverse⟩

/-- Python `str.title()`: uppercase each cased character that follows a
non-alphabetic character, lowercase the rest. -/
def pyTitleAux : Bool → List Char → List Char
  | _, [] => []
  | prevAlpha, c :: cs =>
    let c' := if c.isAlpha then (if prevAlpha then c.toLower else c.toUpper) else c
    c' :: pyTitleAux c.isAlpha cs

/-- Python `s.title()`. -/
def pyTitle (s : String) : String := ⟨pyTitleAux false s.data⟩

/-- Helper for `pySplitStr`: locate the first occurrence of `sep` (non-empty) in
the list; return the part before it and the part after it. -/
def findSplit (sep : List Char) : List Char → Option (List Char × List Char)
  | [] => none
  | c :: cs =>
    if sep.isPrefixOf (c :: cs) then some ([], (c :: cs).drop sep.length)
    else
      match findSplit sep cs with
      | some (pre, post) => some (c :: pre, post)
      | none => none

/-- Fuelled worker for Python `s.split(sep)`; the fuel `s.length + 1` always
suffices because each found separator consumes at least one character. -/
def pySplitAux (sep : List Char) : Nat → List Char → List (List Char)
  | 0, cs => [cs]
  | fuel + 1, cs =>
    if sep = [] then [cs]
    else
      match findSplit sep cs with
      | some (pre, post) => pre :: pySplitAux sep fuel post
      | none => [cs]

/-- Python `s.split(sep)` for a non-empty separator (the only way the source
calls it; Python raises on an empty separator). -/
def pySplitStr (s sep : String) : List String :=
  (pySplitAux sep.data (s.data.length + 1) s.data).map (fun l => ⟨l⟩)

/-- Python `v.replace(frm, toS)`: replace all non-overlapping occurrences,
left to right.  For `frm = ""` Python inserts the replacement around every
character. -/
def pyReplace (v frm toS : String) : String :=
  if frm.data = [] then ⟨toS.data ++ (v.data.map (fun c => c :: toS.data)).flatten⟩
  else String.intercalate toS (pySplitStr v frm)

/-- Decimal value of a digit string, most significant first. -/
def digitsToNat : List Char → Nat → Nat
  | [], acc => acc
  | c :: cs, acc => digitsToNat cs (acc * 10 + (c.toNat - 48))

/-- Python `int(s)` for the plain non-negative decimal strings the source
feeds it (`none` when `int()` would raise on such input). -/
def pyToNat (s : String) : Option Nat :=
  if s.data ≠ [] && s.data.all Char.isDigit then some (digitsToNat s.data 0)
  else none

/-! ### Record values

Python record values in this pipeline are `None`, strings, lists of strings
(from multi-match selectors), booleans (`user_contacted`) and numbers
(`response_time`). -/

inductive Value where
  | vNone : Value
  | str : String → Value
  | vList : List String → Value
  | vBool : Bool → Value
  | vInt : Int → Value
deriving DecidableEq, Repr

/-- Python truthiness (`bool(v)`) of a record value. -/
def Value.truthy : Value → Bool
  | .vNone => false
  | .str s => !(s == "")
  | .vList l => !l.isEmpty
  | .vBool b => b
  | .vInt n => !(n == 0)

/-- Python `str(v)` of a record value.  For a list Python renders the `repr` of
its elements; we render elements with single quotes, which agrees with Python
for strings that contain no quote characters. -/
def pyStr : Value → String
  | .vNone => "None"
  | .str s => s
  | .vList l => "[" ++ String.intercalate ", " (l.map (fun s => "'" ++ s ++ "'")) ++ "]"
  | .vBool b => if b then "True" else "False"
  | .vInt n => toString n

/-- Python truthiness of the compound `field_name in item and item[field_name]`
when the lookup yields `ov`. -/
def truthyOpt : Option Value → Bool
  | some v => v.truthy
  | none => false

/-! ### Items

A scraped item is a Python `dict` from field name to value; dict keys are
unique and insertion-ordered, so we model it as an association list with
distinct keys.  `setVal` is `item[k] = v` (updates in place, appends if new),
`eraseKey` is `item.pop(k, None)`, `getVal` is `item.get(k)`. -/

def Item : Type := List (String × Value)

instance : DecidableEq Item := by unfold Item; infer_instance

instance : Append Item := ⟨fun a b => List.append a b⟩

def getVal : Item → String → Option Value
  | [], _ => none
  | (k, v) :: rest, n => if k = n then some v else getVal rest n

def setVal : Item → String → Value → Item
  | [], n, v => [(n, v)]
  | (k, w) :: rest, n, v =>
    if k = n then (k, v) :: rest else (k, w) :: setVal rest n v

def eraseKey (it : Item) (n : String) : Item :=
  it.filter (fun p => !(p.1 == n))

def itemKeys (it : Item) : List String := it.map (fun p => p.1)

/-! ### Transformations (`_apply_nested_transformations`, source lines 499-550)

Each YAML transform entry is a one-key mapping `transform_type: transform_config`;
the boolean-configured operations are skipped when their config is falsy
(`'strip' and transform_config` in the source). -/

inductive Transform where
  | strip (cfg : Bool)
  | lowercase (cfg : Bool)
  | uppercase (cfg : Bool)
  | title_case (cfg : Bool)
  | limit (n : Nat)
  | join (sep : String)
  | split (sep : String)
  | replace (frm toS : String)
  | truncate (n : Nat)
  | remove_html (cfg : Bool)
  | removePrefixOp (s : String)
  | removeSuffixOp (s : String)
  | normalize_phone (cfg : Bool)
deriving DecidableEq, Repr

/-- Source `remove_prefix` entry operation:
`v[len(s):] if v.startswith(s) else v`. -/
def removePrefixPy (s v : String) : String :=
  if pyStartsWith v s then pyDrop v s.data.length else v

/-- Source `remove_suffix` entry operation:
`v[:-len(s)] if v.endswith(s) else v`. -/
def removeSuffixPy (s v : String) : String :=
  if pyEndsWith v s then sliceDropRight v s.data.length else v

/-- Helper for `remove_html` (`re.sub(r'<[^>]+>', '', v)`): after an opening
angle bracket, consume one or more characters that are not a closing bracket,
then the closing bracket; return the remainder, or `none` when the class
cannot match (the next character closes immediately or the input ends). -/
def skipAfterOne : List Char → Option (List Char)
  | [] => none
  | c :: cs => if c = '>' then some cs else skipAfterOne cs

def skipToClose : List Char → Option (List Char)
  | [] => none
  | c :: cs => if c = '>' then none else skipAfterOne cs

/-- Fuelled scanner for `re.sub(r'<[^>]+>', '', v)`: leftmost, non-overlapping
matches are removed; the fuel `length` suffices as every step consumes at
least one character. -/
def stripTagsAux : Nat → List Char → List Char
  | 0, cs => cs
  | _ + 1, [] => []
  | fuel + 1, c :: rest =>
    if c = '<' then
      match skipToClose rest with
      | some rem => stripTagsAux fuel rem
      | none => c :: stripTagsAux fuel rest
    else c :: stripTagsAux fuel rest

def removeHtml (v : String) : String := ⟨stripTagsAux v.data.length v.data⟩

/-- Source `_normalize_phone`, cleaning step:
`re.sub(r'[^\d+]', '', phone)`. -/
def cleanPhone (s : String) : String :=
  ⟨s.data.filter (fun c => c.isDigit || c == '+')⟩

/-- Source `_normalize_phone` (lines 552-565). -/
def normalizePhone (phone : String) : String :=
  let cleaned := cleanPhone phone
  if pyStartsWith cleaned "+" then cleaned
  else if cleaned.data.length = 10 then "+1" ++ cleaned
  else if cleaned.data.length = 11 && pyStartsWith cleaned "1" then "+" ++ cleaned
  else phone

/-- One step of the transformation loop body. -/
def applyTransform (values : List String) (t : Transform) : List String :=
  match t with
  | .strip cfg =>
    if cfg then (values.filter (fun v => !(v == ""))).map pyStrip else values
  | .lowercase cfg => if cfg then values.map lowerStr else values
  | .uppercase cfg => if cfg then values.map upperStr else values
  | .title_case cfg => if cfg then values.map pyTitle else values
  | .limit n => values.take n
  | .join sep => [String.intercalate sep values]
  | .split sep => values.foldl (fun acc v => acc ++ pySplitStr v sep) []
  | .replace frm toS => values.map (fun v => pyReplace v frm toS)
  | .truncate n => values.map (fun v => pyTake v n)
  | .remove_html cfg => if cfg then values.map removeHtml else values
  | .removePrefixOp s => values.map (removePrefixPy s)
  | .removeSuffixOp s => values.map (removeSuffixPy s)
  | .normalize_phone cfg => if cfg then values.map normalizePhone else values

/-- Source `_apply_nested_transformations`: empty input short-circuits,
otherwise the operations run in declaration order. -/
def applyNestedTransformations (values : List String) (ts : List Transform) :
    List String :=
  if values.isEmpty then values else ts.foldl applyTransform values

/-! ### Regular expressions and validation (`_validate_field_value`, lines 567-588)

The source hands pattern strings to Python's `re.match`, which anchors at the
start of the string only: it succeeds when some prefix of the string matches
the pattern.  We embed compiled patterns as a regular-expression AST and
`re.match` as the Brzozowski-derivative matcher `reMatch` below. -/

inductive Regex where
  | emp : Regex
  | eps : Regex
  | chr : Char → Regex
  | anyChar : Regex
  | alt : Regex → Regex → Regex
  | cat : Regex → Regex → Regex
  | star : Regex → Regex
deriving DecidableEq, Repr

/-- Does the pattern accept the empty string? -/
def Regex.nullable : Regex → Bool
  | .emp => false
  | .eps => true
  | .chr _ => false
  | .anyChar => false
  | .alt r1 r2 => r1.nullable || r2.nullable
  | .cat r1 r2 => r1.nullable && r2.nullable
  | .star _ => true

/-- Brzozowski derivative with respect to one character. -/
def Regex.deriv : Regex → Char → Regex
  | .emp, _ => .emp
  | .eps, _ => .emp
  | .chr c, a => if c = a then .eps else .emp
  | .anyChar, _ => .eps
  | .alt r1 r2, a => .alt (r1.deriv a) (r2.deriv a)
  | .cat r1 r2, a =>
    if r1.nullable then .alt (.cat (r1.deriv a) r2) (r2.deriv a)
    else .cat (r1.deriv a) r2
  | .star r, a => .cat (r.deriv a) (.star r)

/-- Exact (whole-input) match. -/
def matchFrom (r : Regex) (cs : List Char) : Bool :=
  (cs.foldl Regex.deriv r).nullable

/-- Python `re.match(r, s)` viewed as a boolean: some prefix of `s` matches. -/
def reMatch : Regex → List Char → Bool
  | r, [] => r.nullable
  | r, c :: cs => r.nullable || reMatch (r.deriv c) cs

/-- A field's `validation` mapping: optional `pattern`, `min_length`,
`max_length` keys. -/
structure ValidationRule where
  pattern : Option Regex
  min_length : Option Nat
  max_length : Option Nat
deriving DecidableEq, Repr

/-- Source `_validate_field_value`. -/
def validateFieldValue (v : Value) (validation : ValidationRule) : Bool :=
  if !v.truthy then true
  else
    let value_str := pyStr v
    (match validation.pattern with
     | some p => reMatch p value_str.data
     | none => true) &&
    (match validation.min_length with
     | some n => !(value_str.data.length < n)
     | none => true) &&
    (match validation.max_length with
     | some n => !(value_str.data.length > n)
     | none => true)

/-! ### Field configuration and extraction (lines 418-497) -/

/-- A field's `privacy` mapping. -/
structure PrivacyConfig where
  pseudonymise : Option String
  anonymize : Bool
deriving DecidableEq, Repr

/-- A (dict-shaped) `extract_fields` entry.  A legacy string-shaped entry has
no `default_value`, `required`, `validation` or `privacy` keys, so it is
represented with those fields empty. -/
structure FieldConfig where
  selector : String
  transformations : List Transform
  default_value : Option Value
  required : Bool
  validation : Option ValidationRule
  privacy : Option PrivacyConfig
deriving DecidableEq, Repr

/-- The document as delivered by the fetch engine: its address, its CSS query
interface (pure), its crawl depth and its download latency. -/
structure Response where
  url : String
  css : String → List String
  depth : Nat
  latency : Int

/-- Selector dispatch inside `_extract_nested_field`: selectors already
carrying `::text` or `::attr(` are used as-is, anything else defaults to text
extraction. -/
def cssSelect (resp : Response) (sel : String) : List String :=
  if strContains "::text" sel then resp.css sel
  else if strContains "::attr(" sel then resp.css sel
  else resp.css (sel ++ "::text")

/-- Shaping at the end of `_extract_nested_field`: one value is returned as a
scalar, zero as `None`, several as the list. -/
def shapeValue : List String → Value
  | [] => .vNone
  | [v] => .str v
  | vs => .vList vs

/-- Source `_extract_nested_field` (lines 468-497). -/
def extractNestedField (resp : Response) (fc : FieldConfig) : Value :=
  if fc.selector = "response.url" then .str resp.url
  else
    shapeValue
      (applyNestedTransformations (cssSelect resp fc.selector) fc.transformations)

/-- Default substitution in `extract_configured_data`:
`if value is None: value = field_config.get('default_value')`. -/
def valueAfterDefault (resp : Response) (fc : FieldConfig) : Value :=
  match extractNestedField resp fc with
  | .vNone => fc.default_value.getD .vNone
  | v => v

def requiredWarning (name : String) : String :=
  "Required field " ++ name ++ " is missing"

def validationWarning (name : String) : String :=
  "Field " ++ name ++ " failed validation"

/-- The loop body of `extract_configured_data` (lines 423-453) for one
configured field: extract, substitute the default, warn on required-but-
missing, and skip the field (leaving the item unchanged) when a truthy value
fails validation.  Warnings are collected explicitly. -/
def processField (resp : Response) (acc : Item × List String)
    (nc : String × FieldConfig) : Item × List String :=
  let item := acc.1
  let name := nc.1
  let cfg := nc.2
  let v := valueAfterDefault resp cfg
  let warns :=
    if cfg.required && !v.truthy then acc.2 ++ [requiredWarning name] else acc.2
  match cfg.validation with
  | some rule =>
    if v.truthy && !validateFieldValue v rule then
      (item, warns ++ [validationWarning name])
    else (setVal item name v, warns)
  | none => (setVal item name v, warns)

/-- Wall-clock inputs of `extract_configured_data`: `datetime.now()` and the
30-day contact deadline derived from it, both already rendered by
`isoformat()`. -/
structure ClockStamps where
  now : String
  contactBy : String
deriving Repr

/-- Source `extract_configured_data` (lines 418-466): the configured fields in
declaration order, then the metadata and GDPR bookkeeping fields. -/
def extractConfiguredData (fields : List (String × FieldConfig))
    (clock : ClockStamps) (resp : Response) : Item :=
  let base := (fields.foldl (processField resp) ([], [])).1
  let it1 := setVal base "scraped_at" (.str clock.now)
  let it2 := setVal it1 "source_url" (.str resp.url)
  let it3 := setVal it2 "response_time" (.vInt resp.latency)
  let it4 := setVal it3 "contact_by" (.str clock.contactBy)
  setVal it4 "user_contacted" (.vBool false)

/-! ### Item filtering (`_should_include_item`, lines 590-602) -/

structure ExclusionRule where
  field : String
  contains : String
deriving DecidableEq, Repr

/-- Source `_should_include_item`: the first matching exclusion rule rejects
the item (`return False`), otherwise it is included.  The guard
`field in item and item[field] and contains` is `truthyOpt` of the lookup
together with a non-empty `contains`; `str(item[field])` is only evaluated
under that guard, where the lookup is known to succeed, so the `.getD`
default is never the value used. -/
def shouldIncludeItem (item : Item) : List ExclusionRule → Bool
  | [] => true
  | r :: rest =>
    if truthyOpt (getVal item r.field) && !(r.contains == "") &&
        strContains (lowerStr r.contains)
          (lowerStr (pyStr ((getVal item r.field).getD .vNone))) then false
    else shouldIncludeItem item rest

/-! ### SHA-256 (`hashlib.sha256(...).hexdigest()`)

Words are naturals reduced modulo `2 ^ 32`; the message is the UTF-8 encoding
of the hashed string, as produced by Python's `str.encode()`. -/

def m32 : Nat := 4294967296

/-- UTF-8 bytes of one code point. -/
def utf8Bytes (c : Char) : List Nat :=
  let n := c.toNat
  if n < 128 then [n]
  else if n < 2048 then [192 + n / 64, 128 + n % 64]
  else if n < 65536 then
    [224 + n / 4096, 128 + (n / 64) % 64, 128 + n % 64]
  else
    [240 + n / 262144, 128 + (n / 4096) % 64, 128 + (n / 64) % 64, 128 + n % 64]

def strBytes (s : String) : List Nat := (s.data.map utf8Bytes).flatten

/-- Right rotation of a 32-bit word. -/
def rotr (n x : Nat) : Nat := (x >>> n) ||| ((x <<< (32 - n)) % m32)

/-- Bitwise complement of a 32-bit word. -/
def not32 (x : Nat) : Nat := x ^^^ (m32 - 1)

/-- The eight working variables / hash state. -/
structure Hash8 where
  a : Nat
  b : Nat
  c : Nat
  d : Nat
  e : Nat
  f : Nat
  g : Nat
  h : Nat
deriving DecidableEq, Repr

/-- The 64 round constants of FIPS 180-4 (fractional parts of the cube roots
of the first 64 primes), written in decimal. -/
def sha256K : List Nat :=
  [1116352408, 1899447441, 3049323471, 3921009573, 961987163, 1508970993,
   2453635748, 2870763221, 3624381080, 310598401, 607225278, 1426881987,
   1925078388, 2162078206, 2614888103, 3248222580, 3835390401, 4022224774,
   264347078, 604807628, 770255983, 1249150122, 1555081692, 1996064986,
   2554220882, 2821834349, 2952996808, 3210313671, 3336571891, 3584528711,
   113926993, 338241895, 666307205, 773529912, 1294757372, 1396182291,
   1695183700, 1986661051, 2177026350, 2456956037, 2730485921, 2820302411,
   3259730800, 3345764771, 3516065817, 3600352804, 4094571909, 275423344,
   430227734, 506948616, 659060556, 883997877, 958139571, 1322822218,
   1537002063, 1747873779, 1955562222, 2024104815, 2227730452, 2361852424,
   2428436474, 2756734187, 3204031479, 3329325298]

/-- The initial hash state of FIPS 180-4 (fractional parts of the square
roots of the first 8 primes), written in decimal. -/
def sha256H0 : Hash8 :=
  ⟨1779033703, 3144134277, 1013904242, 2773480762,
   1359893119, 2600822924, 528734635, 1541459225⟩

/-- Append the mandatory padding: a `0x80` byte, zeros, and the 64-bit
big-endian bit length, reaching a multiple of 64 bytes. -/
def padMessage (bytes : List Nat) : List Nat :=
  let L := bytes.length
  let k := (64 - ((L + 9) % 64)) % 64
  bytes ++ [128] ++ List.replicate k 0 ++
    (List.range 8).map (fun i => ((8 * L) >>> (8 * (7 - i))) % 256)

/-- The sixteen big-endian message words of one 64-byte block. -/
def wordsOfBlock (block : List Nat) : List Nat :=
  (List.range 16).map (fun i =>
    ((block.getD (4 * i) 0) <<< 24) + ((block.getD (4 * i + 1) 0) <<< 16) +
      ((block.getD (4 * i + 2) 0) <<< 8) + block.getD (4 * i + 3) 0)

/-- Extend the message schedule from 16 to 64 words. -/
def extendSchedule (w0 : List Nat) : List Nat :=
  (List.range 48).foldl
    (fun w _ =>
      let t := w.length
      let w15 := w.getD (t - 15) 0
      let w2 := w.getD (t - 2) 0
      let s0 := (rotr 7 w15) ^^^ (rotr 18 w15) ^^^ (w15 >>> 3)
      let s1 := (rotr 17 w2) ^^^ (rotr 19 w2) ^^^ (w2 >>> 10)
      w ++ [(w.getD (t - 16) 0 + s0 + w.getD (t - 7) 0 + s1) % m32])
    w0

/-- One round of the compression function. -/
def sha256Round (st : Hash8) (kw : Nat × Nat) : Hash8 :=
  let S1 := (rotr 6 st.e) ^^^ (rotr 11 st.e) ^^^ (rotr 25 st.e)
  let ch := (st.e &&& st.f) ^^^ ((not32 st.e) &&& st.g)
  let temp1 := (st.h + S1 + ch + kw.1 + kw.2) % m32
  let S0 := (rotr 2 st.a) ^^^ (rotr 13 st.a) ^^^ (rotr 22 st.a)
  let maj := (st.a &&& st.b) ^^^ (st.a &&& st.c) ^^^ (st.b &&& st.c)
  let temp2 := (S0 + maj) % m32
  ⟨(temp1 + temp2) % m32, st.a, st.b, st.c, (st.d + temp1) % m32, st.e, st.f, st.g⟩

/-- Compress one 64-byte block into the running hash. -/
def compressBlock (H : Hash8) (block : List Nat) : Hash8 :=
  let w := extendSchedule (wordsOfBlock block)
  let st := (sha256K.zip w).foldl sha256Round H
  ⟨(H.a + st.a) % m32, (H.b + st.b) % m32, (H.c + st.c) % m32,
   (H.d + st.d) % m32, (H.e + st.e) % m32, (H.f + st.f) % m32,
   (H.g + st.g) % m32, (H.h + st.h) % m32⟩

def sha256sum (s : String) : Hash8 :=
  let msg := padMessage (strBytes s)
  let blocks := (List.range (msg.length / 64)).map
    (fun i => (msg.drop (64 * i)).take 64)
  blocks.foldl compressBlock sha256H0

/-- Lowercase hexadecimal digit. -/
def hexChar (n : Nat) : Char :=
  if n < 10 then Char.ofNat (48 + n) else Char.ofNat (87 + n)

/-- Eight hex digits of one 32-bit word, most significant first. -/
def hex8 (n : Nat) : List Char :=
  (List.range 8).map (fun i => hexChar ((n >>> (4 * (7 - i))) % 16))

def toHexStr (H : Hash8) : String :=
  ⟨hex8 H.a ++ hex8 H.b ++ hex8 H.c ++ hex8 H.d ++
   hex8 H.e ++ hex8 H.f ++ hex8 H.g ++ hex8 H.h⟩

/-- `hashlib.sha256(x.encode()).hexdigest()`. -/
def sha256hex (s : String) : String := toHexStr (sha256sum s)

/-! ### Privacy engine (`apply_data_protection`, lines 604-630) -/

/-- `int(method.split(':')[1])` of the `pseudonymise` mini-language, as a
`Nat` parse (`none` when Python's `int()` would raise). -/
def parseTrunc (method : String) : Option Nat :=
  pyToNat ((pySplitStr method ":").getD 1 "")

/-- The pseudonymisation branch of `apply_data_protection` for one value:
`some` is the replacement value, `none` means the method leaves the value
untouched (an unrecognised method name; a malformed truncation length, where
Python's `int()` would instead raise, is out of the claims' scope and also
mapped to `none`). -/
def pseudonymiseValue (method : String) (value_str : String) : Option String :=
  if pyStartsWith method "SHA256" then
    let hash_full := sha256hex value_str
    if strContains ":" method then
      match parseTrunc method with
      | some length => some (pyTake hash_full length)
      | none => none
    else some hash_full
  else if method = "Stub" then some "[REDACTED]"
  else none

/-- The body of the `apply_data_protection` loop for one configured field:
fields without a `privacy` mapping, fields absent from the item and fields
with a falsy value are untouched; otherwise pseudonymisation rewrites the
value in place and `anonymize` then pops the field. -/
def protectField (item : Item) (name : String) (cfg : FieldConfig) : Item :=
  match cfg.privacy with
  | none => item
  | some pc =>
    match getVal item name with
    | some v =>
      if v.truthy then
        let item1 :=
          match pc.pseudonymise with
          | some method =>
            match pseudonymiseValue method (pyStr v) with
            | some s => setVal item name (.str s)
            | none => item
          | none => item
        if pc.anonymize then eraseKey item1 name else item1
      else item
    | none => item

/-- Source `apply_data_protection` (lines 604-630): the loop over
`extract_fields.items()`. -/
def applyDataProtection (fields : List (String × FieldConfig)) (item : Item) :
    Item :=
  fields.foldl (fun it nc => protectField it nc.1 nc.2) item

/-! ### CSV serialization (`_save_as_csv`, lines 678-700)

The extra (non-declared) columns are collected into a Python `set` and then
iterated; a Python set of strings enumerates in an unspecified, hash-dependent
order, so the embedding takes that enumeration as an explicit input
constrained only by set semantics (`validSetEnum`). -/

/-- The header computation: declared fields first, then each enumerated field
not already present is appended. -/
def csvFieldnames (declared : List String) (setEnum : List String) :
    List String :=
  setEnum.foldl (fun fns f => if f ∈ fns then fns else fns ++ [f]) declared

/-- `setEnum` is a possible iteration order of
`set().union(*(item.keys() for item in items))`: duplicate-free and holding
exactly the keys occurring in the items. -/
def validSetEnum (items : List Item) (setEnum : List String) : Prop :=
  setEnum.Nodup ∧
  (∀ it ∈ items, ∀ f ∈ itemKeys it, f ∈ setEnum) ∧
  (∀ f ∈ setEnum, ∃ it ∈ items, f ∈ itemKeys it)

instance (items : List Item) (setEnum : List String) :
    Decidable (validSetEnum items setEnum) := by
  unfold validSetEnum; infer_instance

/-- One CSV data cell: `csv.DictWriter` renders a missing key as its `restval`
(the empty string by default) and `str()`s present values, with `None` also
rendered empty. -/
def csvCell (it : Item) (f : String) : String :=
  match getVal it f with
  | some .vNone => ""
  | some v => pyStr v
  | none => ""

/-- The rows written by `writer.writerows`. -/
def csvRows (items : List Item) (fieldnames : List String) :
    List (List String) :=
  items.map (fun it => fieldnames.map (csvCell it))

/-- Source `_save_as_csv` as the grid it writes: one header row, then one row
per item. -/
def saveAsCsv (declared : List String) (items : List Item)
    (setEnum : List String) : List (List String) :=
  let fieldnames := csvFieldnames declared setEnum
  fieldnames :: csvRows items fieldnames

/-- First-seen order of the items' keys, the order the specification claims
for the extra columns. -/
def firstSeenKeys (items : List Item) : List String :=
  items.foldl (fun acc it => acc ++ (itemKeys it).filter (fun k => !(acc.contains k))) []

/-! ### Document processor (`parse_item`, lines 378-416) -/

/-- The spider's per-job configuration, already loaded from the target file. -/
structure SpiderCtx where
  maxPages : Nat
  maxDepth : Nat
  extractFields : List (String × FieldConfig)
  excludeRules : List ExclusionRule
  clock : ClockStamps

/-- The spider's mutable state: the page counter and the accumulated records. -/
structure SpiderState where
  pagesScraped : Nat
  scrapedData : List Item
deriving DecidableEq

/-- Source `parse_item`: `error` models the `CloseSpider` exception; the
`Option Item` component is the item yielded to the engine (if any). -/
def parseItem (ctx : SpiderCtx) (st : SpiderState) (resp : Response) :
    Except String (SpiderState × Option Item) :=
  if st.pagesScraped ≥ ctx.maxPages then .error "Maximum pages reached"
  else if resp.depth ≥ ctx.maxDepth then .ok (st, none)
  else
    let st1 : SpiderState :=
      { pagesScraped := st.pagesScraped + 1, scrapedData := st.scrapedData }
    let item := extractConfiguredData ctx.extractFields ctx.clock resp
    if shouldIncludeItem item ctx.excludeRules then
      let item' := applyDataProtection ctx.extractFields item
      .ok ({ st1 with scrapedData := st1.scrapedData ++ [item'] }, some item')
    else .ok (st1, none)

/-! ### Association-list lemmas -/

theorem getVal_setVal_self (it : Item) (n : String) (v : Value) :
    getVal (setVal it n v) n = some v := by
  induction it with
  | nil => simp [setVal, getVal]
  | cons p rest ih =>
    obtain ⟨k, w⟩ := p
    by_cases h : k = n
    · simp [setVal, getVal, h]
    · simp [setVal, getVal, h, ih]

theorem getVal_setVal_ne (it : Item) (k n : String) (v : Value) (h : k ≠ n) :
    getVal (setVal it k v) n = getVal it n := by
  induction it with
  | nil => simp [setVal, getVal, h]
  | cons p rest ih =>
    obtain ⟨k', w⟩ := p
    by_cases h' : k' = k
    · simp [setVal, getVal, h', h, Ne.symm h, ih]
    · by_cases h'' : k' = n <;> simp [setVal, getVal, h', h'', Ne.symm h, ih]

theorem getVal_erase_self (it : Item) (n : String) :
    getVal (eraseKey it n) n = none := by
  induction it with
  | nil => rfl
  | cons p rest ih =>
    obtain ⟨k, w⟩ := p
    simp only [eraseKey, List.filter_cons] at ih ⊢
    by_cases h : k = n
    · simp [h, ih]
    · simp [h, getVal, ih]

theorem getVal_erase_ne (it : Item) (k n : String) (h : k ≠ n) :
    getVal (eraseKey it k) n = getVal it n := by
  induction it with
  | nil => rfl
  | cons p rest ih =>
    obtain ⟨k', w⟩ := p
    simp only [eraseKey, List.filter_cons] at ih ⊢
    by_cases h' : k' = k
    · subst h'
      simp [getVal, h, Ne.symm h, ih]
    · by_cases h'' : k' = n <;> simp [getVal, h', h'', Ne.symm h, ih]

theorem getVal_eq_none_iff (it : Item) (n : String) :
    getVal it n = none ↔ n ∉ itemKeys it := by
  induction it with
  | nil => simp [getVal, itemKeys]
  | cons p rest ih =>
    obtain ⟨k, w⟩ := p
    by_cases h : k = n
    · simp [getVal, itemKeys, h]
    · simp [getVal, itemKeys, h, ih, Ne.symm h]

/-! ### Characterising `apply_data_protection` field by field -/

/-- The effect of one `apply_data_protection` loop iteration on the looked-up
value of its own field. -/
def protectLookup (cfg : FieldConfig) (ov : Option Value) : Option Value :=
  match cfg.privacy with
  | none => ov
  | some pc =>
    match ov with
    | some v =>
      if v.truthy then
        if pc.anonymize then none
        else
          match pc.pseudonymise with
          | some method =>
            match pseudonymiseValue method (pyStr v) with
            | some s => some (.str s)
            | none => ov
          | none => ov
      else ov
    | none => ov

theorem getVal_protectField_self (it : Item) (name : String) (cfg : FieldConfig) :
    getVal (protectField it name cfg) name = protectLookup cfg (getVal it name) := by
  unfold protectField protectLookup
  cases hp : cfg.privacy with
  | none => rfl
  | some pc =>
    cases hg : getVal it name with
    | none => exact hg
    | some v =>
      by_cases ht : v.truthy
      · simp only [ht, if_true]
        cases hps : pc.pseudonymise with
        | none =>
          by_cases ha : pc.anonymize
          · simp [ha, getVal_erase_self]
          · simp [ha, hg]
        | some method =>
          cases hv : pseudonymiseValue method (pyStr v) with
          | none =>
            by_cases ha : pc.anonymize
            · simp [hv, ha, getVal_erase_self]
            · simp [hv, ha, hg]
          | some s =>
            by_cases ha : pc.anonymize
            · simp [hv, ha, getVal_erase_self]
            · simp [hv, ha, getVal_setVal_self]
      · simp only [ht, Bool.false_eq_true, if_false]
        exact hg

theorem getVal_protectField_ne (it : Item) (name n : String) (cfg : FieldConfig)
    (h : name ≠ n) :
    getVal (protectField it name cfg) n = getVal it n := by
  unfold protectField
  cases hp : cfg.privacy with
  | none => rfl
  | some pc =>
    cases hg : getVal it name with
    | none => rfl
    | some v =>
      by_cases ht : v.truthy
      · simp only [ht, if_true]
        cases hps : pc.pseudonymise with
        | none =>
          by_cases ha : pc.anonymize <;> simp [ha, getVal_erase_ne _ _ _ h]
        | some method =>
          cases hv : pseudonymiseValue method (pyStr v) with
          | none =>
            by_cases ha : pc.anonymize <;>
              simp [hv, ha, getVal_erase_ne _ _ _ h]
          | some s =>
            by_cases ha : pc.anonymize <;>
              simp [hv, ha, getVal_erase_ne _ _ _ h, getVal_setVal_ne _ _ _ _ h]
      · simp [ht]

/-- `extract_fields[name]`, as the loop over `extract_fields.items()` sees it. -/
def findCfg (name : String) : List (String × FieldConfig) → Option FieldConfig
  | [] => none
  | (n, c) :: rest => if n = name then some c else findCfg name rest

theorem findCfg_eq_none_of_notMem (name : String)
    (fields : List (String × FieldConfig))
    (h : name ∉ fields.map (fun nc => nc.1)) : findCfg name fields = none := by
  induction fields with
  | nil => rfl
  | cons nc rest ih =>
    obtain ⟨n, c⟩ := nc
    simp only [List.map_cons, List.mem_cons, not_or] at h
    simp only [findCfg, if_neg (fun hh : n = name => h.1 hh.symm)]
    exact ih h.2

theorem getVal_adp_notMem (fields : List (String × FieldConfig)) (it : Item)
    (name : String) (h : findCfg name fields = none) :
    getVal (applyDataProtection fields it) name = getVal it name := by
  induction fields generalizing it with
  | nil => rfl
  | cons nc rest ih =>
    obtain ⟨n, c⟩ := nc
    by_cases hn : n = name
    · simp [findCfg, hn] at h
    · simp only [applyDataProtection, List.foldl_cons]
      rw [show (rest.foldl (fun it nc => protectField it nc.1 nc.2)
            (protectField it n c)) =
          applyDataProtection rest (protectField it n c) from rfl]
      rw [ih _ (by simpa [findCfg, hn] using h)]
      exact getVal_protectField_ne _ _ _ _ hn

/-- The central lemma: with distinct configured field names (Python dict keys
are unique), the protected item's value at a field depends only on that
field's configuration and its own previous value. -/
theorem getVal_applyDataProtection (fields : List (String × FieldConfig))
    (it : Item) (name : String)
    (hnd : (fields.map (fun nc => nc.1)).Nodup) :
    getVal (applyDataProtection fields it) name =
      match findCfg name fields with
      | some cfg => protectLookup cfg (getVal it name)
      | none => getVal it name := by
  induction fields generalizing it with
  | nil => rfl
  | cons nc rest ih =>
    obtain ⟨n, c⟩ := nc
    simp only [List.map_cons, List.nodup_cons] at hnd
    simp only [applyDataProtection, List.foldl_cons]
    rw [show (rest.foldl (fun it nc => protectField it nc.1 nc.2)
          (protectField it n c)) =
        applyDataProtection rest (protectField it n c) from rfl]
    by_cases hn : n = name
    · subst hn
      have hnone : findCfg n rest = none :=
        findCfg_eq_none_of_notMem _ _ hnd.1
      rw [getVal_adp_notMem _ _ _ hnone]
      simp [findCfg, getVal_protectField_self]
    · rw [ih _ hnd.2]
      simp only [findCfg, if_neg hn]
      cases hf : findCfg name rest <;>
        rw [getVal_protectField_ne _ _ _ _ hn]

/-! ### String lemmas -/

theorem strExt {s t : String} (h : s.data = t.data) : s = t := by
  cases s; cases t; exact congrArg String.mk h

theorem data_ne_nil_of_ne_empty {s : String} (h : s ≠ "") : s.data ≠ [] := by
  intro hd
  exact h (strExt (by simp [hd]))

theorem pyStartsWith_iff (v s : String) :
    pyStartsWith v s = true ↔ ∃ rest : String, v = s ++ rest := by
  unfold pyStartsWith
  rw [ List.isPrefixOf_iff_prefix]
  constructor
  · rintro ⟨t, ht⟩
    exact ⟨⟨t⟩, strExt (by simpa [String.data_append] using ht.symm)⟩
  · rintro ⟨rest, rfl⟩
    exact ⟨rest.data, by simp [String.data_append]⟩

theorem pyEndsWith_iff (v s : String) :
    pyEndsWith v s = true ↔ ∃ front : String, v = front ++ s := by
  unfold pyEndsWith
  rw [List.isSuffixOf_iff_suffix]
  constructor
  · rintro ⟨t, ht⟩
    exact ⟨⟨t⟩, strExt (by simpa [String.data_append] using ht.symm)⟩
  · rintro ⟨front, rfl⟩
    exact ⟨front.data, by simp [String.data_append]⟩

/-! ### `re.match` matches a prefix: the promised semantics of `reMatch` -/

theorem matchFrom_nil (r : Regex) : matchFrom r [] = r.nullable := rfl

theorem matchFrom_cons (r : Regex) (c : Char) (cs : List Char) :
    matchFrom r (c :: cs) = matchFrom (r.deriv c) cs := rfl

/-- `reMatch` succeeds exactly when some prefix of the input is an exact match
of the pattern: Python `re.match` anchors at the start only. -/
theorem reMatch_iff_prefixMatch (cs : List Char) (r : Regex) :
    reMatch r cs = true ↔
      ∃ pre suf, cs = pre ++ suf ∧ matchFrom r pre = true := by
  induction cs generalizing r with
  | nil =>
    simp only [reMatch]
    constructor
    · intro h; exact ⟨[], [], rfl, h⟩
    · rintro ⟨pre, suf, hps, hm⟩
      have hpre : pre = [] := by cases pre <;> simp_all
      subst hpre
      simpa [matchFrom_nil] using hm
  | cons c cs ih =>
    simp only [reMatch, Bool.or_eq_true]
    constructor
    · rintro (h | h)
      · exact ⟨[], c :: cs, rfl, h⟩
      · obtain ⟨pre, suf, hps, hm⟩ := (ih (r.deriv c)).mp h
        exact ⟨c :: pre, suf, by simp [hps], by rwa [matchFrom_cons]⟩
    · rintro ⟨pre, suf, hps, hm⟩
      cases pre with
      | nil =>
        left
        simpa [matchFrom_nil] using hm
      | cons c' pre' =>
        simp only [List.cons_append, List.cons.injEq] at hps
        obtain ⟨rfl, h2⟩ := hps
        right
        exact (ih (r.deriv c)).mpr ⟨pre', suf, h2, by rwa [matchFrom_cons] at hm⟩

/-! ### Hex digest lemmas -/

def isHexDigit (c : Char) : Bool :=
  ('0' ≤ c && c ≤ '9') || ('a' ≤ c && c ≤ 'f')

theorem hexChar_isHexDigit : ∀ n, n < 16 → isHexDigit (hexChar n) = true := by
  decide

theorem hex8_length (n : Nat) : (hex8 n).length = 8 := by
  simp [hex8]

theorem hex8_mem_isHexDigit (n : Nat) (c : Char) (h : c ∈ hex8 n) :
    isHexDigit c = true := by
  simp only [hex8, List.mem_map, List.mem_range] at h
  obtain ⟨i, _, rfl⟩ := h
  exact hexChar_isHexDigit _ (Nat.mod_lt _ (by norm_num))

theorem sha256hex_length (s : String) : (sha256hex s).length = 64 := by
  show ((toHexStr (sha256sum s)).data).length = 64
  simp [toHexStr, hex8_length]

theorem sha256hex_mem_isHexDigit (s : String) (c : Char)
    (h : c ∈ (sha256hex s).data) : isHexDigit c = true := by
  have hmem : c ∈ (toHexStr (sha256sum s)).data := h
  simp only [toHexStr, List.mem_append] at hmem
  simp only [or_assoc] at hmem
  rcases hmem with h' | h' | h' | h' | h' | h' | h' | h'
  all_goals exact hex8_mem_isHexDigit _ _ h'

theorem pyTake_length (s : String) (n : Nat) :
    (pyTake s n).length = min n s.length := by
  show (s.data.take n).length = min n s.data.length
  exact List.length_take n s.data

/-! ### CSV header lemma -/

theorem csvFieldnames_eq (declared : List String) (setEnum : List String)
    (hnd : setEnum.Nodup) :
    csvFieldnames declared setEnum =
      declared ++ setEnum.filter (fun f => !declared.contains f) := by
  unfold csvFieldnames
  induction setEnum generalizing declared with
  | nil => simp
  | cons f rest ih =>
    simp only [List.nodup_cons] at hnd
    by_cases h : f ∈ declared
    · simp only [List.foldl_cons, if_pos h, List.filter_cons]
      rw [ih _ hnd.2]
      simp [h]
    · simp only [List.foldl_cons, if_neg h, List.filter_cons]
      rw [ih _ hnd.2]
      have hfilter :
          rest.filter (fun x => !(declared ++ [f]).contains x) =
            rest.filter (fun x => !declared.contains x) := by
        apply List.filter_congr
        intro x hx
        have hxf : x ≠ f := fun hxf => hnd.1 (hxf ▸ hx)
        simp [List.elem_eq_mem, hxf]
      rw [hfilter]
      simp [h, List.append_assoc]

/-! ## Claim theorems -/

/-- Claim C2: for every extracted value list and transformation chain, the
field value produced by `_extract_nested_field` is shaped by the remaining
entry count — zero entries give `None`, exactly one gives that entry as a
scalar, more than one gives the list — and `_apply_nested_transformations`
returns the empty input sequence unchanged for every chain. -/
theorem C2_shape (ts : List Transform) (resp : Response) (fc : FieldConfig)
    (hsel : fc.selector ≠ "response.url") :
    applyNestedTransformations [] ts = [] ∧
    (applyNestedTransformations (cssSelect resp fc.selector)
        fc.transformations = [] →
      extractNestedField resp fc = Value.vNone) ∧
    (∀ v, applyNestedTransformations (cssSelect resp fc.selector)
        fc.transformations = [v] →
      extractNestedField resp fc = Value.str v) ∧
    (∀ v w rest, applyNestedTransformations (cssSelect resp fc.selector)
        fc.transformations = v :: w :: rest →
      extractNestedField resp fc = Value.vList (v :: w :: rest)) := by
  refine ⟨by simp [applyNestedTransformations], ?_, ?_, ?_⟩
  · intro h
    unfold extractNestedField
    rw [if_neg hsel, h]
    rfl
  · intro v h
    unfold extractNestedField
    rw [if_neg hsel, h]
    rfl
  · intro v w rest h
    unfold extractNestedField
    rw [if_neg hsel, h]
    rfl

/-- Witness for C2 at concrete inputs: a two-match selector yields the list,
and the empty input is untouched by a nonempty chain. -/
theorem C2_shape_witness :
    applyNestedTransformations [] [Transform.join ","] = [] ∧
    extractNestedField ⟨"u", fun _ => ["a", "b"], 0, 0⟩
        ⟨"h1", [], none, false, none, none⟩ = Value.vList ["a", "b"] := by
  have h := C2_shape [Transform.join ","] ⟨"u", fun _ => ["a", "b"], 0, 0⟩
    ⟨"h1", [], none, false, none, none⟩ (by decide)
  exact ⟨h.1, h.2.2.2 "a" "b" [] rfl⟩

/-- Counterexample to claim C3 as stated: for input `"+44 20"` the cleaned
string is `"+4420"`, which is neither exactly 10 digits nor an 11-digit
string starting with `1`, so the claim's final clause demands the input
back unchanged; the code instead returns the cleaned string. -/
theorem C3_counterexample :
    normalizePhone "+44 20" = "+4420" ∧
    ("+4420" : String) ≠ "+44 20" ∧
    ¬((cleanPhone "+44 20").data.length = 10 ∧
      (cleanPhone "+44 20").data.all Char.isDigit = true) ∧
    ¬((cleanPhone "+44 20").data.length = 11 ∧
      pyStartsWith (cleanPhone "+44 20") "1" = true) := by
  decide

/-- Claim C3 (amended): `_normalize_phone` strips all non-digit, non-plus
characters; if the cleaned string starts with `+` it returns the cleaned
string; else if the cleaned string has exactly 10 characters it returns
`"+1"` followed by it; else if it has exactly 11 characters and starts with
`1` it returns `"+"` followed by it; otherwise it returns the input
unchanged; in particular `"(555) 123-4567"` maps to `"+15551234567"`. -/
theorem C3_normalize_phone (phone : String) :
    (pyStartsWith (cleanPhone phone) "+" = true →
      normalizePhone phone = cleanPhone phone) ∧
    (pyStartsWith (cleanPhone phone) "+" = false →
      (cleanPhone phone).data.length = 10 →
      normalizePhone phone = "+1" ++ cleanPhone phone) ∧
    (pyStartsWith (cleanPhone phone) "+" = false →
      (cleanPhone phone).data.length = 11 →
      pyStartsWith (cleanPhone phone) "1" = true →
      normalizePhone phone = "+" ++ cleanPhone phone) ∧
    (pyStartsWith (cleanPhone phone) "+" = false →
      (cleanPhone phone).data.length ≠ 10 →
      ((cleanPhone phone).data.length = 11 →
        pyStartsWith (cleanPhone phone) "1" = false) →
      normalizePhone phone = phone) ∧
    normalizePhone "(555) 123-4567" = "+15551234567" := by
  refine ⟨fun h1 => ?_, fun h1 h2 => ?_, fun h1 h2 h3 => ?_,
    fun h1 h2 h3 => ?_, by decide⟩
  · unfold normalizePhone
    rw [if_pos h1]
  · unfold normalizePhone
    rw [if_neg (by simp [h1]), if_pos h2]
  · unfold normalizePhone
    rw [if_neg (by simp [h1]), if_neg (by simp [h2]), if_pos (by simp [h2, h3])]
  · unfold normalizePhone
    rw [if_neg (by simp [h1]), if_neg h2]
    by_cases h4 : (cleanPhone phone).data.length = 11
    · have hcond : ¬(((cleanPhone phone).data.length = 11 &&
          pyStartsWith (cleanPhone phone) "1") = true) := by
        simp only [Bool.and_eq_true, decide_eq_true_eq, not_and]
        intro _
        simp [h3 h4]
      rw [if_neg hcond]
    · have hcond : ¬(((cleanPhone phone).data.length = 11 &&
          pyStartsWith (cleanPhone phone) "1") = true) := by
        simp only [Bool.and_eq_true, decide_eq_true_eq, not_and]
        exact fun hh => absurd hh h4
      rw [if_neg hcond]

/-- Witness for C3 (amended) at concrete inputs for all four branches. -/
theorem C3_normalize_phone_witness :
    normalizePhone "+44 20" = cleanPhone "+44 20" ∧
    normalizePhone "(555) 123-4567" = "+1" ++ cleanPhone "(555) 123-4567" ∧
    normalizePhone "1-555-123-4567" = "+" ++ cleanPhone "1-555-123-4567" ∧
    normalizePhone "12345" = "12345" := by
  refine ⟨(C3_normalize_phone "+44 20").1 (by decide),
    (C3_normalize_phone "(555) 123-4567").2.1 (by decide) (by decide),
    (C3_normalize_phone "1-555-123-4567").2.2.1 (by decide) (by decide)
      (by decide),
    (C3_normalize_phone "12345").2.2.2.1 (by decide) (by decide)
      (fun h => absurd h (by decide))⟩

/-- Counterexample to claim C9 as stated: `remove_suffix("")` maps `"abc"`
(which does end with the empty suffix, so the claim demands it back
unchanged) to `""`, because `v[:-0]` is the empty slice in Python. -/
theorem C9_counterexample :
    applyTransform ["abc"] (Transform.removeSuffixOp "") = [""] ∧
    ("abc" : String) = "abc" ++ "" ∧
    ([""] : List String) ≠ ["abc"] := by
  decide

/-- Claim C9 (amended): per entry, `remove_prefix(s)` drops `s` from the front
exactly when the entry starts with `s` and is the identity otherwise; for
non-empty `s`, `remove_suffix(s)` drops `s` from the end exactly when the
entry ends with `s` and is the identity otherwise (for empty `s` the Python
slice `v[:-0]` instead empties the entry). -/
theorem C9_affix_ops (s v : String) :
    (∀ rest : String, v = s ++ rest → removePrefixPy s v = rest) ∧
    ((∀ rest : String, v ≠ s ++ rest) → removePrefixPy s v = v) ∧
    (s ≠ "" → ∀ front : String, v = front ++ s → removeSuffixPy s v = front) ∧
    (s ≠ "" → (∀ front : String, v ≠ front ++ s) → removeSuffixPy s v = v) ∧
    applyTransform [v] (Transform.removePrefixOp s) = [removePrefixPy s v] ∧
    applyTransform [v] (Transform.removeSuffixOp s) = [removeSuffixPy s v] := by
  refine ⟨?_, ?_, ?_, ?_, rfl, rfl⟩
  · rintro rest rfl
    unfold removePrefixPy
    rw [if_pos ((pyStartsWith_iff _ _).mpr ⟨rest, rfl⟩)]
    apply strExt
    show ((s ++ rest).data).drop s.data.length = rest.data
    rw [String.data_append, List.drop_left]
  · intro hno
    unfold removePrefixPy
    rw [if_neg]
    intro hsw
    obtain ⟨rest, hv⟩ := (pyStartsWith_iff v s).mp hsw
    exact hno rest hv
  · rintro hs front rfl
    unfold removeSuffixPy
    rw [if_pos ((pyEndsWith_iff _ _).mpr ⟨front, rfl⟩)]
    unfold sliceDropRight
    rw [if_neg (fun h0 => (data_ne_nil_of_ne_empty hs)
      (List.length_eq_zero.mp h0))]
    apply strExt
    show ((front ++ s).data).take ((front ++ s).data.length - s.data.length) =
      front.data
    rw [String.data_append, List.length_append, Nat.add_sub_cancel,
      List.take_left]
  · intro hs hno
    unfold removeSuffixPy
    rw [if_neg]
    intro hew
    obtain ⟨front, hv⟩ := (pyEndsWith_iff v s).mp hew
    exact hno front hv

/-- Witness for C9 (amended) at concrete inputs for all four cases. -/
theorem C9_affix_ops_witness :
    removePrefixPy "ab" "abcd" = "cd" ∧
    removePrefixPy "zz" "abcd" = "abcd" ∧
    removeSuffixPy "cd" "abcd" = "ab" ∧
    removeSuffixPy "zz" "abcd" = "abcd" := by
  refine ⟨(C9_affix_ops "ab" "abcd").1 "cd" (by decide),
    (C9_affix_ops "zz" "abcd").2.1 ?_,
    (C9_affix_ops "cd" "abcd").2.2.1 (by decide) "ab" (by decide),
    (C9_affix_ops "zz" "abcd").2.2.2.1 (by decide) ?_⟩
  · intro rest h
    have htrue := (pyStartsWith_iff "abcd" "zz").mpr ⟨rest, h⟩
    exact absurd htrue (by decide)
  · intro front h
    have htrue := (pyEndsWith_iff "abcd" "zz").mpr ⟨front, h⟩
    exact absurd htrue (by decide)

/-- Counterexample to claim C4 as stated: the rule
`{field := "title", contains := ""}` has an empty `contains` string, which is
a substring of the non-empty value `"clean"`, so the claim demands exclusion;
the code treats a falsy `contains` as never matching and keeps the item. -/
theorem C4_counterexample :
    shouldIncludeItem [("title", Value.str "clean")]
        [⟨"title", ""⟩] = true ∧
    getVal [("title", Value.str "clean")] "title" =
      some (Value.str "clean") ∧
    (Value.str "clean").truthy = true ∧
    strContains (lowerStr "") (lowerStr (pyStr (Value.str "clean"))) = true := by
  decide

/-- Claim C4 (amended): an item is excluded exactly when some rule has a
non-empty `contains` string and names a field present in the item with a
truthy value whose stringification contains `contains` case-insensitively;
an absent field, a falsy value, or an empty `contains` never excludes. -/
theorem C4_exclusion (item : Item) (rules : List ExclusionRule) :
    shouldIncludeItem item rules = false ↔
      ∃ r ∈ rules, r.contains ≠ "" ∧
        ∃ v, getVal item r.field = some v ∧ v.truthy = true ∧
          strContains (lowerStr r.contains) (lowerStr (pyStr v)) = true := by
  induction rules with
  | nil => simp [shouldIncludeItem]
  | cons r rest ih =>
    simp only [shouldIncludeItem]
    by_cases hc : (truthyOpt (getVal item r.field) && !(r.contains == "") &&
        strContains (lowerStr r.contains)
          (lowerStr (pyStr ((getVal item r.field).getD .vNone)))) = true
    · rw [if_pos hc]
      simp only [Bool.and_eq_true, Bool.not_eq_true', beq_eq_false_iff_ne,
        ne_eq] at hc
      obtain ⟨⟨htr, hne⟩, hsub⟩ := hc
      cases hg : getVal item r.field with
      | none =>
        rw [hg] at htr
        exact absurd htr (by simp [truthyOpt])
      | some v =>
        rw [hg] at htr hsub
        constructor
        · intro _
          exact ⟨r, List.mem_cons_self _ _, hne, v, hg,
            by simpa [truthyOpt] using htr, by simpa using hsub⟩
        · intro _; rfl
    · rw [if_neg hc, ih]
      constructor
      · rintro ⟨r', hr', hrest⟩
        exact ⟨r', List.mem_cons_of_mem _ hr', hrest⟩
      · rintro ⟨r', hr', hne, w, hw, htr, hsub⟩
        rcases List.mem_cons.mp hr' with rfl | hr'
        · refine absurd ?_ hc
          rw [hw]
          simp [truthyOpt, htr, hne, hsub]
        · exact ⟨r', hr', hne, w, hw, htr, hsub⟩

/-- Witness for C4 (amended): the specification's own instance — the rule
excludes a `"SPAM alert"` title and keeps a `"clean"` one. -/
theorem C4_exclusion_witness :
    shouldIncludeItem [("title", Value.str "SPAM alert")]
      [⟨"title", "spam"⟩] = false ∧
    shouldIncludeItem [("title", Value.str "clean")]
      [⟨"title", "spam"⟩] = true := by
  constructor
  · exact (C4_exclusion _ _).mpr
      ⟨⟨"title", "spam"⟩, by decide, by decide,
        Value.str "SPAM alert", by decide, by decide, by decide⟩
  · by_contra h
    have hfalse : shouldIncludeItem [("title", Value.str "clean")]
        [⟨"title", "spam"⟩] = false := by
      revert h; decide
    obtain ⟨r, hr, hne, v, hv, htr, hsub⟩ := (C4_exclusion _ _).mp hfalse
    have hr' : r = ⟨"title", "spam"⟩ := by
      rcases List.mem_cons.mp hr with h | h
      · exact h
      · exact absurd h (List.not_mem_nil _)
    subst hr'
    have hv' : v = Value.str "clean" := by
      rw [show getVal [("title", Value.str "clean")] "title" =
        some (Value.str "clean") from rfl] at hv
      exact (Option.some.inj hv).symm
    subst hv'
    exact absurd hsub (by decide)

/-- Claim C5: a falsy value always validates true; for a truthy value,
validation passes exactly when the (optional) pattern prefix-matches the
stringified value — in the `re.match` sense of matching some prefix — and
the stringified value's character count meets the (optional) length bounds;
and a truthy value that fails validation leaves the field unset for this
record (the item is unchanged) while a warning is emitted — the loop
continues, never raising. -/
theorem C5_validation (v : Value) (rule : ValidationRule) (resp : Response)
    (item : Item) (warns : List String) (name : String) (cfg : FieldConfig)
    (r : ValidationRule) :
    (v.truthy = false → validateFieldValue v rule = true) ∧
    (v.truthy = true →
      (validateFieldValue v rule = true ↔
        (∀ p, rule.pattern = some p →
          ∃ pre suf, (pyStr v).data = pre ++ suf ∧ matchFrom p pre = true) ∧
        (∀ n, rule.min_length = some n → n ≤ (pyStr v).data.length) ∧
        (∀ n, rule.max_length = some n → (pyStr v).data.length ≤ n))) ∧
    (cfg.validation = some r →
      (valueAfterDefault resp cfg).truthy = true →
      validateFieldValue (valueAfterDefault resp cfg) r = false →
      processField resp (item, warns) (name, cfg) =
        (item, warns ++ [validationWarning name])) := by
  refine ⟨fun ht => by simp [validateFieldValue, ht], fun ht => ?_,
    fun hval ht hfail => ?_⟩
  · simp only [validateFieldValue, ht, Bool.not_true, Bool.false_eq_true,
      if_false, Bool.and_eq_true]
    have hA : ((match rule.pattern with
        | some p => reMatch p (pyStr v).data
        | none => true) = true) ↔
        (∀ p, rule.pattern = some p →
          ∃ pre suf, (pyStr v).data = pre ++ suf ∧ matchFrom p pre = true) := by
      cases hp : rule.pattern with
      | none => simp
      | some p => simp [reMatch_iff_prefixMatch]
    have hB : ((match rule.min_length with
        | some n => !((pyStr v).data.length < n : Bool)
        | none => true) = true) ↔
        (∀ n, rule.min_length = some n → n ≤ (pyStr v).data.length) := by
      cases hm : rule.min_length with
      | none => simp
      | some n => simp [Nat.not_lt]
    have hC : ((match rule.max_length with
        | some n => !((pyStr v).data.length > n : Bool)
        | none => true) = true) ↔
        (∀ n, rule.max_length = some n → (pyStr v).data.length ≤ n) := by
      cases hm : rule.max_length with
      | none => simp
      | some n => simp [Nat.not_lt]
    rw [hA, hB, hC]
    exact ⟨fun h => ⟨h.1.1, h.1.2, h.2⟩, fun h => ⟨⟨h.1, h.2.1⟩, h.2.2⟩⟩
  · simp [processField, hval, ht, hfail]

/-- Witness for C5: a falsy value passes a strict rule; a truthy value passes
a prefix pattern; a too-short truthy value is skipped with a warning and the
item left without the field. -/
theorem C5_validation_witness :
    validateFieldValue (Value.str "") ⟨some (Regex.chr 'a'), some 3, none⟩ =
      true ∧
    validateFieldValue (Value.str "ab")
      ⟨some (Regex.cat (Regex.chr 'a') (Regex.chr 'b')), none, none⟩ = true ∧
    processField ⟨"u", fun _ => ["hello"], 0, 0⟩ ([], [])
        ("email", ⟨"h1", [], none, false, some ⟨none, some 10, none⟩, none⟩) =
      ([], [validationWarning "email"]) := by
  refine ⟨?_, ?_, ?_⟩
  · exact (C5_validation (Value.str "") ⟨some (Regex.chr 'a'), some 3, none⟩
      ⟨"", fun _ => [], 0, 0⟩ [] [] "" ⟨"", [], none, false, none, none⟩
      ⟨none, none, none⟩).1 (by decide)
  · refine ((C5_validation (Value.str "ab")
      ⟨some (Regex.cat (Regex.chr 'a') (Regex.chr 'b')), none, none⟩
      ⟨"", fun _ => [], 0, 0⟩ [] [] "" ⟨"", [], none, false, none, none⟩
      ⟨none, none, none⟩).2.1 (by decide)).mpr ⟨?_, ?_, ?_⟩
    · intro p hp
      cases hp
      exact ⟨['a', 'b'], [], by decide, by decide⟩
    · intro n hn
      exact Option.noConfusion hn
    · intro n hn
      exact Option.noConfusion hn
  · exact (C5_validation Value.vNone ⟨none, none, none⟩
      ⟨"u", fun _ => ["hello"], 0, 0⟩ [] [] "email"
      ⟨"h1", [], none, false, some ⟨none, some 10, none⟩, none⟩
      ⟨none, some 10, none⟩).2.2 rfl (by decide) (by decide)

/-- Counterexample to claim C1 as stated: a field with `anonymize := true`
whose extracted value is the empty string (falsy) is NOT removed by
`apply_data_protection` — the truthiness guard skips the whole privacy block,
so the field is still present afterwards. -/
theorem C1_counterexample :
    getVal (applyDataProtection
        [("email", ⟨"h1", [], none, false, none, some ⟨none, true⟩⟩)]
        [("email", Value.str "")]) "email" = some (Value.str "") := by
  decide

/-- Claim C1 (amended): for every record and every field whose configuration
sets `anonymize := true`, if the field's value in the record is truthy then
the field is absent after `apply_data_protection`, and reapplying privacy
processing leaves it absent (idempotent for that field). -/
theorem C1_anonymize (fields : List (String × FieldConfig)) (it : Item)
    (name : String) (cfg : FieldConfig) (pc : PrivacyConfig)
    (hnd : (fields.map (fun nc => nc.1)).Nodup)
    (hf : findCfg name fields = some cfg)
    (hp : cfg.privacy = some pc)
    (ha : pc.anonymize = true)
    (ht : truthyOpt (getVal it name) = true) :
    getVal (applyDataProtection fields it) name = none ∧
    getVal (applyDataProtection fields (applyDataProtection fields it)) name =
      none := by
  have h1 : getVal (applyDataProtection fields it) name = none := by
    rw [getVal_applyDataProtection _ _ _ hnd, hf]
    show protectLookup cfg (getVal it name) = none
    cases hg : getVal it name with
    | none => rw [hg] at ht; exact absurd ht (by simp [truthyOpt])
    | some v =>
      rw [hg] at ht
      unfold protectLookup
      rw [hp]
      simp only [truthyOpt] at ht
      simp [ht, ha]
  refine ⟨h1, ?_⟩
  rw [getVal_applyDataProtection _ _ _ hnd, hf]
  show protectLookup cfg
    (getVal (applyDataProtection fields it) name) = none
  rw [h1]
  unfold protectLookup
  rw [hp]

/-- Witness for C1 (amended) at a concrete record. -/
theorem C1_anonymize_witness :
    getVal (applyDataProtection
        [("email", ⟨"h1", [], none, false, none, some ⟨none, true⟩⟩)]
        [("email", Value.str "x")]) "email" = none ∧
    getVal (applyDataProtection
        [("email", ⟨"h1", [], none, false, none, some ⟨none, true⟩⟩)]
        (applyDataProtection
          [("email", ⟨"h1", [], none, false, none, some ⟨none, true⟩⟩)]
          [("email", Value.str "x")])) "email" = none :=
  C1_anonymize _ _ "email" _ _ (by decide) rfl rfl rfl (by decide)

/-- Claim C10: `apply_data_protection` is a frame over everything else — a
field with no privacy policy in its configuration (including fields not
configured at all, such as the metadata columns), and a field whose current
value is falsy (absent, `None`, empty string, empty list, `False`, `0`), is
left with exactly the same lookup result: neither hashed, nor replaced, nor
removed. -/
theorem C10_frame (fields : List (String × FieldConfig)) (it : Item)
    (name : String)
    (hnd : (fields.map (fun nc => nc.1)).Nodup)
    (h : (∀ cfg, findCfg name fields = some cfg → cfg.privacy = none) ∨
         truthyOpt (getVal it name) = false) :
    getVal (applyDataProtection fields it) name = getVal it name := by
  rw [getVal_applyDataProtection _ _ _ hnd]
  cases hf : findCfg name fields with
  | none => rfl
  | some cfg =>
    show protectLookup cfg (getVal it name) = getVal it name
    rcases h with h | h
    · unfold protectLookup
      rw [h cfg hf]
    · unfold protectLookup
      cases hp : cfg.privacy with
      | none => rfl
      | some pc =>
        cases hg : getVal it name with
        | none => rfl
        | some v =>
          rw [hg] at h
          simp only [truthyOpt] at h
          simp [h]

/-- Witness for C10 at a concrete record: a configured field with no privacy
policy, a privacy-configured field holding a falsy value, and an
unconfigured metadata field all come through unchanged. -/
theorem C10_frame_witness :
    getVal (applyDataProtection
        [("email", ⟨"h1", [], none, false, none, some ⟨some "SHA256", false⟩⟩),
         ("name", ⟨"h2", [], none, false, none, none⟩)]
        [("email", Value.str ""), ("name", Value.str "bob"),
         ("scraped_at", Value.str "t")]) "name" = some (Value.str "bob") ∧
    getVal (applyDataProtection
        [("email", ⟨"h1", [], none, false, none, some ⟨some "SHA256", false⟩⟩),
         ("name", ⟨"h2", [], none, false, none, none⟩)]
        [("email", Value.str ""), ("name", Value.str "bob"),
         ("scraped_at", Value.str "t")]) "email" = some (Value.str "") ∧
    getVal (applyDataProtection
        [("email", ⟨"h1", [], none, false, none, some ⟨some "SHA256", false⟩⟩),
         ("name", ⟨"h2", [], none, false, none, none⟩)]
        [("email", Value.str ""), ("name", Value.str "bob"),
         ("scraped_at", Value.str "t")]) "scraped_at" =
      some (Value.str "t") := by
  refine ⟨?_, ?_, ?_⟩
  · refine (C10_frame _ _ "name" (by decide) (Or.inl ?_)).trans rfl
    intro cfg hcfg
    have heval : findCfg "name"
        [("email",
          (⟨"h1", [], none, false, none, some ⟨some "SHA256", false⟩⟩ :
            FieldConfig)),
         ("name", ⟨"h2", [], none, false, none, none⟩)] =
        some ⟨"h2", [], none, false, none, none⟩ := rfl
    rw [heval] at hcfg
    cases Option.some.inj hcfg
    rfl
  · exact (C10_frame _ _ "email" (by decide) (Or.inr (by decide))).trans rfl
  · refine (C10_frame _ _ "scraped_at" (by decide) (Or.inl ?_)).trans rfl
    intro cfg hcfg
    have heval : findCfg "scraped_at"
        [("email",
          (⟨"h1", [], none, false, none, some ⟨some "SHA256", false⟩⟩ :
            FieldConfig)),
         ("name", ⟨"h2", [], none, false, none, none⟩)] = none := rfl
    rw [heval] at hcfg
    exact Option.noConfusion hcfg

/-- Claim C8: hash-based pseudonymisation is deterministic and length-stable —
two records holding the same raw value under the same `SHA256:N` method are
protected to the same output, and that output is the 64-character lowercase
hexadecimal SHA-256 digest truncated to `min N 64` characters. -/
theorem C8_pseudonymise (fields : List (String × FieldConfig))
    (name : String) (cfg : FieldConfig) (pc : PrivacyConfig) (m : String)
    (n : Nat) (it1 it2 : Item)
    (hnd : (fields.map (fun nc => nc.1)).Nodup)
    (hf : findCfg name fields = some cfg)
    (hp : cfg.privacy = some pc)
    (ha : pc.anonymize = false)
    (hm : pc.pseudonymise = some m)
    (hsw : pyStartsWith m "SHA256" = true)
    (hcol : strContains ":" m = true)
    (hn : parseTrunc m = some n)
    (heq : getVal it1 name = getVal it2 name) :
    getVal (applyDataProtection fields it1) name =
      getVal (applyDataProtection fields it2) name ∧
    (∀ v, getVal it1 name = some v → v.truthy = true →
      getVal (applyDataProtection fields it1) name =
        some (Value.str (pyTake (sha256hex (pyStr v)) n)) ∧
      (pyTake (sha256hex (pyStr v)) n).length = min n 64 ∧
      ∀ c ∈ (sha256hex (pyStr v)).data, isHexDigit c = true) := by
  have key : ∀ it : Item, getVal (applyDataProtection fields it) name =
      protectLookup cfg (getVal it name) := by
    intro it
    rw [getVal_applyDataProtection _ _ _ hnd, hf]
  constructor
  · rw [key it1, key it2, heq]
  · intro v hv ht
    have hps : pseudonymiseValue m (pyStr v) =
        some (pyTake (sha256hex (pyStr v)) n) := by
      unfold pseudonymiseValue
      rw [if_pos hsw, if_pos hcol, hn]
    refine ⟨?_, ?_, fun c hc => sha256hex_mem_isHexDigit _ _ hc⟩
    · rw [key it1, hv]
      unfold protectLookup
      rw [hp]
      simp [ht, ha, hm, hps]
    · rw [pyTake_length, sha256hex_length]

/-- Witness for C8: the same e-mail address in two differently-shaped records
hashes to the same 16-character truncation of its digest. -/
theorem C8_pseudonymise_witness :
    getVal (applyDataProtection
        [("email",
          ⟨"h1", [], none, false, none, some ⟨some "SHA256:16", false⟩⟩)]
        [("email", Value.str "alice@example.com")]) "email" =
      getVal (applyDataProtection
        [("email",
          ⟨"h1", [], none, false, none, some ⟨some "SHA256:16", false⟩⟩)]
        [("x", Value.vNone), ("email", Value.str "alice@example.com")])
        "email" ∧
    getVal (applyDataProtection
        [("email",
          ⟨"h1", [], none, false, none, some ⟨some "SHA256:16", false⟩⟩)]
        [("email", Value.str "alice@example.com")]) "email" =
      some (Value.str (pyTake (sha256hex "alice@example.com") 16)) ∧
    (pyTake (sha256hex "alice@example.com") 16).length = min 16 64 := by
  have h := C8_pseudonymise
    [("email", ⟨"h1", [], none, false, none, some ⟨some "SHA256:16", false⟩⟩)]
    "email" _ _ "SHA256:16" 16
    [("email", Value.str "alice@example.com")]
    [("x", Value.vNone), ("email", Value.str "alice@example.com")]
    (by decide) rfl rfl rfl rfl (by decide) (by decide) (by decide) rfl
  have h2 := h.2 (Value.str "alice@example.com") rfl (by decide)
  exact ⟨h.1, h2.1, h2.2.1⟩

/-- Counterexample to claim C6 as stated: the extra columns are collected into
a Python `set`, whose iteration order is hash-dependent and unspecified; the
enumeration `["b", "a", "name"]` is a legitimate iteration of the key set of
the given single item, yet appending its new elements after the declared
columns does not give first-seen order (`["a", "b"]`). -/
theorem C6_counterexample :
    validSetEnum [[("name", Value.str "x"), ("a", Value.str "1"),
        ("b", Value.str "2")]] ["b", "a", "name"] ∧
    csvFieldnames ["name"] ["b", "a", "name"] ≠
      ["name"] ++ (firstSeenKeys [[("name", Value.str "x"),
        ("a", Value.str "1"), ("b", Value.str "2")]]).filter
          (fun f => !(["name"] : List String).contains f) := by
  decide

/-- Claim C6 (amended): the CSV header is the declared field order followed by
each remaining field exactly once — in the unspecified order of the Python
set iteration, not necessarily first-seen order; the header covers every key
of every item; there is one header row and one row per item; and a record
missing a key renders that cell as the empty string. -/
theorem C6_csv (declared : List String) (items : List Item)
    (setEnum : List String) (hvalid : validSetEnum items setEnum) :
    csvFieldnames declared setEnum =
      declared ++ setEnum.filter (fun f => !declared.contains f) ∧
    (∀ it ∈ items, ∀ f ∈ itemKeys it,
      f ∈ csvFieldnames declared setEnum) ∧
    (saveAsCsv declared items setEnum).length = items.length + 1 ∧
    (csvRows items (csvFieldnames declared setEnum)).length = items.length ∧
    (∀ it ∈ items, ∀ f ∈ csvFieldnames declared setEnum,
      f ∉ itemKeys it → csvCell it f = "") := by
  refine ⟨csvFieldnames_eq _ _ hvalid.1, ?_, ?_, ?_, ?_⟩
  · intro it hit f hf
    have hfe : f ∈ setEnum := hvalid.2.1 it hit f hf
    rw [csvFieldnames_eq _ _ hvalid.1]
    by_cases hd : f ∈ declared
    · exact List.mem_append_left _ hd
    · refine List.mem_append_right _ ?_
      rw [List.mem_filter]
      exact ⟨hfe, by simp [List.contains, List.elem_eq_mem, hd]⟩
  · simp [saveAsCsv, csvRows]
  · simp [csvRows]
  · intro it _ f _ hnot
    unfold csvCell
    rw [(getVal_eq_none_iff it f).mpr hnot]

/-- Witness for C6 (amended): the specification's two-record example — one
record missing the optional field — with a concrete set enumeration: the
header covers the union and the missing cell is empty. -/
theorem C6_csv_witness :
    saveAsCsv ["name", "email"]
        [[("name", Value.str "a"), ("email", Value.str "e")],
         [("name", Value.str "b")]] ["email", "name"] =
      [["name", "email"], ["a", "e"], ["b", ""]] ∧
    csvCell [("name", Value.str "b")] "email" = "" := by
  have h := C6_csv ["name", "email"]
    [[("name", Value.str "a"), ("email", Value.str "e")],
     [("name", Value.str "b")]] ["email", "name"] (by decide)
  exact ⟨by decide, h.2.2.2.2 [("name", Value.str "b")] (by decide) "email"
    (by decide) (by decide)⟩

/-- Counterexample to claim C7 as stated: at `depth = max_depth` (with the
page limit not yet reached) `parse_item` returns before incrementing the
page counter and before extracting anything — the document is neither
counted nor processed into the collection, while the claim demands the
counter be incremented and the record appended. -/
theorem C7_counterexample :
    parseItem ⟨10, 1, [], [], ⟨"t", "u"⟩⟩ ⟨0, []⟩ ⟨"v", fun _ => [], 1, 0⟩ =
      Except.ok (⟨0, []⟩, none) ∧
    (0 : Nat) < 10 ∧ (1 : Nat) ≥ 1 ∧
    (0 : Nat) ≠ 0 + 1 ∧ ([] : List Item) = [] := by
  exact ⟨rfl, by decide, by decide, by decide, rfl⟩

/-- Claim C7 (amended): a document whose crawl depth reaches the configured
maximum (while the page limit is not yet reached) is skipped outright —
`parse_item` leaves the page counter and the collection unchanged and yields
nothing, so in particular no outbound links of it are followed. -/
theorem C7_depth_skip (ctx : SpiderCtx) (st : SpiderState) (resp : Response)
    (hpages : st.pagesScraped < ctx.maxPages)
    (hdepth : ctx.maxDepth ≤ resp.depth) :
    parseItem ctx st resp = .ok (st, none) := by
  unfold parseItem
  rw [if_neg (Nat.not_le.mpr hpages), if_pos hdepth]

/-- Witness for C7 (amended) at a concrete state and document. -/
theorem C7_depth_skip_witness :
    parseItem ⟨10, 1, [], [], ⟨"t", "u"⟩⟩ ⟨3, []⟩ ⟨"v", fun _ => [], 2, 0⟩ =
      Except.ok (⟨3, []⟩, none) :=
  C7_depth_skip _ _ _ (by decide) (by decide)

end EthoScraper
